import Mathlib

/-!
Verification development for the GraphWeaver repository.

This file gives a shallow embedding, in Lean 4, of the Python modules
`main.py`, `utils/llm_orchestration.py`, `utils/neo4j_store.py` and
`utils/validation.py`, and proves properties of the embedded definitions.

Modelling conventions, used throughout:

* Python strings are Lean `String`; the character-level scanning performed by
  the `re` module is embedded as structurally recursive functions over
  `List Char`.  A `re.search` is modelled operationally: the engine tries
  every start position from the left, at each start attempting the
  (deterministic, for the concrete patterns used here) continuation of the
  pattern.  Escapes `\x27` and `\x7b`, `\x7d` in string literals denote the
  apostrophe and the two brace characters.
* `json.loads` is an external library; it is passed in as an abstract parser
  `jl : String → Option JsonVal`, where `none` models a raised
  `json.JSONDecodeError`.  Python float literals are out of scope; numbers
  are modelled as `Int`.
* The language model (`llm.predict`) is external and nondeterministic; it is
  modelled as an oracle `llm : Nat → String → String` mapping the index of
  the call (0-based, counting every `predict` call of one pipeline run) and
  the prompt text to the reply.  The pipeline result carries the total
  number of `predict` calls performed.
* The Neo4j database is modelled by a `Store` value listing the `Type`
  nodes, `Field` nodes, `HAS_FIELD` edges and `HAS_RELATION` edges — the
  only labels this application ever writes.  Each Cypher query of the
  source is embedded as a pure function on `Store`.
* `validate_query` reads `schema.json` and calls the external graphql-core
  validator; the whole operation is passed in as an abstract
  `validator : String → List String` (it returns a list of error strings
  and never raises, per its own try/except).
* A raised Python exception is an `Except.error` with a `PyErr` describing
  the exception class; `Except.ok` is an ordinary return.
-/

namespace GraphWeaver

/-! ## Character-level scanning primitives -/

/-- The apostrophe character. -/
def apos : Char := Char.ofNat 39

/-- The opening brace character. -/
def obrace : Char := Char.ofNat 123

/-- The closing brace character. -/
def cbrace : Char := Char.ofNat 125

/-- ASCII whitespace as matched by Python `\s` and stripped by `str.strip()`. -/
def isPySpace (c : Char) : Bool :=
  c = ' ' || c = '\t' || c = '\n' || c = '\x0b' || c = '\x0c' || c = '\r'

/-- Python `str.strip()` on a character list. -/
def pyStrip (s : List Char) : List Char :=
  ((s.dropWhile isPySpace).reverse.dropWhile isPySpace).reverse

/-- Python `str.strip()` on a string. -/
def pyStripStr (s : String) : String := String.mk (pyStrip s.toList)

/-- Index of the first occurrence of the literal `pat` in `s`
(the semantics of searching for a literal pattern with `re.search`). -/
def findSub (pat : List Char) : List Char → Option Nat
  | [] => if pat.isEmpty then some 0 else none
  | c :: s => if pat.isPrefixOf (c :: s) then some 0 else (findSub pat s).map (· + 1)

/-- Operational model of a `re.search`: try every start position from the
left; at each start, `f` receives the suffix and returns the captured value
when the whole pattern matches there. -/
def reScan {α : Type} (f : List Char → Option α) : List Char → Option α
  | [] => f []
  | c :: s =>
    match f (c :: s) with
    | some r => some r
    | none => reScan f s

/-- Strict lexicographic order on character lists by code point, the string
order used by `ORDER BY` on the ASCII field names of this schema. -/
def strLt : List Char → List Char → Bool
  | [], [] => false
  | [], _ :: _ => true
  | _ :: _, [] => false
  | a :: as, b :: bs => Nat.blt a.toNat b.toNat || (a == b && strLt as bs)

/-- Index of the last occurrence of the character `c` in `s`
(where a greedy `.*` followed by a literal character ends its match). -/
def lastIdx (c : Char) : List Char → Option Nat
  | [] => none
  | x :: s =>
    match lastIdx c s with
    | some j => some (j + 1)
    | none => if x = c then some 0 else none

/-! ## JSON values

Results of the external `json.loads`, as far as this program inspects them. -/

inductive JsonVal where
  | null : JsonVal
  | jbool : Bool → JsonVal
  | jnum : Int → JsonVal
  | jstr : String → JsonVal
  | jarr : List JsonVal → JsonVal
  | jobj : List (String × JsonVal) → JsonVal
  deriving Repr

/-- Python `dict.get` on a parsed JSON object (`json.loads` keeps the last
binding of a duplicated key, so the association list is assumed key-unique
and looked up from the front). -/
def jget (m : List (String × JsonVal)) (k : String) : Option JsonVal :=
  match m with
  | [] => none
  | (k', v) :: rest => if k = k' then some v else jget rest k

mutual
/-- Python `repr` of a parsed JSON value (used by `str` on containers).
The exact rendering of containers is irrelevant to every claim; scalar
renderings follow Python. -/
def pyReprVal : JsonVal → String
  | .null => "None"
  | .jbool true => "True"
  | .jbool false => "False"
  | .jnum n => toString n
  | .jstr s => "\x27" ++ s ++ "\x27"
  | .jarr xs => "[" ++ String.intercalate ", " (pyReprList xs) ++ "]"
  | .jobj xs => "\x7b" ++ String.intercalate ", " (pyReprObj xs) ++ "\x7d"

def pyReprList : List JsonVal → List String
  | [] => []
  | v :: vs => pyReprVal v :: pyReprList vs

def pyReprObj : List (String × JsonVal) → List String
  | [] => []
  | kv :: vs => ("\x27" ++ kv.1 ++ "\x27: " ++ pyReprVal kv.2) :: pyReprObj vs
end

/-- Python `str` of a parsed JSON value. -/
def pyStrVal : JsonVal → String
  | .null => "None"
  | .jbool true => "True"
  | .jbool false => "False"
  | .jnum n => toString n
  | .jstr s => s
  | .jarr xs => pyReprVal (.jarr xs)
  | .jobj xs => pyReprVal (.jobj xs)

/-- Python `str` of an optional value (`str(None)` is `"None"`), as used when
an f-string interpolates the result of `dict.get`. -/
def pyStr : Option JsonVal → String
  | none => "None"
  | some v => pyStrVal v

/-! ## Exceptions -/

/-- The Python exception classes that the embedded code can raise. -/
inductive PyErr where
  | valueError : String → PyErr
  | runtimeError : String → PyErr
  | jsonDecodeError : PyErr
  | attributeError : PyErr
  | keyError : String → PyErr
  deriving DecidableEq, Repr

/-! ## utils/llm_orchestration.py -/

/-- Variables required by `check_llm_env_vars`. -/
def llm_env_vars : List String := ["LLM_API_KEY", "LLM_BASE_URL", "LLM_MODEL"]

/-- `check_llm_env_vars`: raises `ValueError` naming the unset variables when
one of the LLM variables is unset or empty, else returns the settings.  The
environment is `env : String → Option String`, `none` meaning unset or empty
(both are falsy for `os.getenv`). -/
def check_llm_env_vars (env : String → Option String) :
    Except PyErr (List (String × String)) :=
  let missing := llm_env_vars.filter (fun v => (env v).isNone)
  if missing.isEmpty then
    .ok (llm_env_vars.map (fun v => (v, (env v).getD "")))
  else
    .error (.valueError
      ("Missing required LLM environment variables: " ++ String.intercalate ", " missing))

/-- The prompt built by `infer_types_from_intent` before its single
`llm.predict` call. -/
def infer_types_prompt (user_intent : String) (schema_types : List String) : String :=
  "\nYou are a schema type resolver.\nAvailable schema types: "
    ++ String.intercalate ", " schema_types
    ++ ".\n\nUser request: \"" ++ user_intent ++ "\"\n\n"
    ++ "If a type has both a direct entity (Dashboard) and a Connection type (DashboardsConnection),\n"
    ++ "always prefer the base entity type (Dashboard).\n\n"
    ++ "Return the most relevant source type and destination type\n"
    ++ "from the schema (JSON format with keys \x27src_type\x27 and \x27dst_type\x27).\n"

/-- The `re.search(r"\x7b.*\x7d", llm_response, re.DOTALL)` of `parse_types`:
the span from the first opening brace to the last closing brace, provided the
latter comes strictly after the former. -/
def extract_first_json (s : String) : Option String :=
  let cs := s.toList
  match findSub [obrace] cs, lastIdx cbrace cs with
  | some i, some j => if i < j then some (String.mk ((cs.drop i).take (j - i + 1))) else none
  | _, _ => none

/-- `parse_types`: extract the first JSON-object-looking span of the reply and
parse it.  No span yields `(None, None)`; a `json.loads` failure raises; a
parse to a non-object raises `AttributeError` at `data.get`. -/
def parse_types (jl : String → Option JsonVal) (llm_response : String) :
    Except PyErr (Option JsonVal × Option JsonVal) :=
  match extract_first_json llm_response with
  | none => .ok (none, none)
  | some cleaned =>
    match jl cleaned with
    | none => .error .jsonDecodeError
    | some (.jobj m) => .ok (jget m "src_type", jget m "dst_type")
    | some _ => .error .attributeError

/-- The generation prompt template `graphql_prompt`, with its three slots
filled, as produced by `graphql_prompt.format(...)`. -/
def graphql_prompt_format (user_intent schema_path schema_snippets : String) : String :=
  "\nYou are a Tableau GraphQL query generator.\nYour job is to produce a VALID GraphQL query for Tableauâ€™s Metadata API.\n\n### User intent:\n"
  ++ user_intent
  ++ "\n\n### Schema path:\n"
  ++ schema_path
  ++ "\n\n### Allowed schema snippets (ground truth):\n"
  ++ schema_snippets
  ++ "\n\n### STRICT RULES:\n1. Only use fields shown in the schema snippets above. Never invent fields or relations.\n2. Follow the schema path exactly â€” do not guess or insert missing links.\n3. Always use plural root fields from type Query (e.g., `workbooks`, `datasources`, `databaseTables`, `tableauUsers`).\n\n4. Filtering:\n   - Allowed only on scalar fields explicitly listed in `<Type>_Filter`.\n   - Do NOT use relationship fields inside filters.\n   - Do NOT invent operators like `contains` unless shown in the filter type.\n   - If the user intent requires filtering on a non-filterable field, return exactly:\n     `No valid path`.\n\n5. Connection vs List:\n   - If a field ends with `Connection`, use the pattern:\n     `connectionName(first: N) \x7b nodes \x7b ...fields \x7d \x7d`\n   - If a field is a plain list (`[Type!]!`), query the items directly without `nodes`.\n   - Never add pagination args (`first:`, `after:`) to plain lists.\n\n6. Sorting:\n   - Only use `orderBy:` if the schema snippet explicitly shows it.\n   - Syntax: `orderBy: \x7bfield: NAME, direction: ASC\x7d`.\n\n7. Nested connections:\n   - Query nested connections (e.g., `downstreamSheetsConnection`, `upstreamTablesConnection`) only from their parent type.\n   - Never query them directly at the root.\n\n8. Calculated fields:\n   - Retrieve via `fields` or `calculatedFields` under `Datasource`.\n   - Never use `worksheetFieldsConnection`.\n\n9. Always request a few scalar fields (`id`, `name`, etc.) at each level for clarity.\n\n10. If the user intent is a simple list (e.g., \"list all X with id and name\"), \n    only query the root type (no traversal into relationships).\n\n11. If no valid query can be built with the schema snippets, respond exactly:\n    `No valid path`\n\n### Output format:\n  - Always wrap the query in fenced code block:\n  ```graphql\n  query MyQuery \x7b <your query here> \x7d\n  ```\n\n  - Variables (if any) must be valid JSON, wrapped in:\n\n  ```json\n  \x7b <your variables here> \x7d\n  ```\n"

/-! ### extract_query_and_vars -/

/-- The literal `` ```graphql `` opening a fenced query block. -/
def fenceOpen : List Char := "```graphql".toList

/-- The literal `` ``` `` closing a fenced block. -/
def fenceClose : List Char := "```".toList

/-- The literal label of the fallback query section. -/
def gqLabel : List Char := "GraphQL Query:".toList

/-- The literal blank-line-then-label terminator of the fallback query span. -/
def nnVariables : List Char := "\n\nVariables:".toList

/-- The literal label preceding a variables block. -/
def varsLabel : List Char := "Variables:".toList

/-- The literal `` ```json `` opening a fenced JSON block. -/
def jsonOpen : List Char := "```json".toList

/-- Search for ```` ```graphql(.*?)``` ```` with `re.S`: at the first
occurrence of the opening fence, capture up to the earliest closing fence. -/
def fence_query_match (s : List Char) : Option (List Char) :=
  reScan (fun t =>
    if fenceOpen.isPrefixOf t then
      (findSub fenceClose (t.drop fenceOpen.length)).map
        (fun j => (t.drop fenceOpen.length).take j)
    else none) s

/-- Search for `GraphQL Query:\s*(.*?)\n\nVariables:` with `re.S`.  At each
occurrence of the label, the greedy `\s*` first consumes the whole
whitespace run after it (length `w`), so the lazy group ends at the
earliest `\n\nVariables:` occurring at index `w` or later of the remainder
`rest`, and the group is `rest[w..that index)`.  Only when no such
occurrence exists does backtracking shorten `\s*`; the single position it
can still reach is `w - 2` — the terminator then consists of the last two
whitespace characters of the run followed by `Variables:` at `w` — and the
group is empty.  (No occurrence can start before `w - 2`: its `Variables:`
part would have to begin inside the whitespace run.)  When the whole
pattern fails at this label, the scan moves on to the next occurrence of
the label. -/
def label_query_match (s : List Char) : Option (List Char) :=
  reScan (fun t =>
    if gqLabel.isPrefixOf t then
      let rest := t.drop gqLabel.length
      let w := (rest.takeWhile isPySpace).length
      match findSub nnVariables (rest.drop w) with
      | some j => some ((rest.drop w).take j)
      | none =>
        if 2 ≤ w && nnVariables.isPrefixOf (rest.drop (w - 2)) then some []
        else none
    else none) s

/-- Search for ```` Variables:\s*```json(.*?)``` ```` with `re.S`: at each
occurrence of the label, the whitespace run after it must be followed
immediately by the JSON fence (both `\s` and the fence head are forced), then
capture up to the earliest closing fence; on failure the scan moves on to the
next occurrence of the label. -/
def vars_fence_match (s : List Char) : Option (List Char) :=
  reScan (fun t =>
    if varsLabel.isPrefixOf t then
      let body := (t.drop varsLabel.length).dropWhile isPySpace
      if jsonOpen.isPrefixOf body then
        (findSub fenceClose (body.drop jsonOpen.length)).map
          (fun j => (body.drop jsonOpen.length).take j)
      else none
    else none) s

/-- Search for `Variables:\s*(\x7b.*\x7d)` with `re.S`: at each occurrence of
the label, the whitespace run must be followed immediately by an opening
brace; the greedy `.*` extends the capture to the last closing brace of the
whole remaining text. -/
def vars_brace_match (s : List Char) : Option (List Char) :=
  reScan (fun t =>
    if varsLabel.isPrefixOf t then
      match (t.drop varsLabel.length).dropWhile isPySpace with
      | [] => none
      | c :: rest =>
        if c = obrace then
          (lastIdx cbrace rest).map (fun j => obrace :: rest.take (j + 1))
        else none
    else none) s

/-- `extract_query_and_vars`: the query is the stripped contents of the first
fenced GraphQL block, else the stripped span of the labelled section, else
`None`.  The variables are parsed from a fenced JSON block after a
`Variables:` label, else from a bare braced span after such a label; every
failure (no match — an `AttributeError` on `.group` — or a `json.loads`
error) is swallowed by the bare `except:` and yields the empty dict. -/
def extract_query_and_vars (jl : String → Option JsonVal) (response : String) :
    Option String × JsonVal :=
  let s := response.toList
  let query : Option String :=
    match fence_query_match s with
    | some g => some (String.mk (pyStrip g))
    | none =>
      match label_query_match s with
      | some g => some (String.mk (pyStrip g))
      | none => none
  let varsVal : JsonVal :=
    match vars_fence_match s with
    | some g =>
      match jl (String.mk (pyStrip g)) with
      | some v => v
      | none => .jobj []
    | none =>
      match vars_brace_match s with
      | some g =>
        match jl (String.mk (pyStrip g)) with
        | some v => v
        | none => .jobj []
      | none => .jobj []
  (query, varsVal)

/-! ### build_correction_prompt -/

/-- One entry of the `invalids` list: the Python dict
`\x7b"field": ..., "type": ...\x7d` produced by `extract_invalids`. -/
structure InvalidEntry where
  field : String
  ty : String
  deriving DecidableEq, Repr

/-- Python dict lookup `allowed_fields_map[t]` on an association list;
`none` models a raised `KeyError`. -/
def dict_get (k : String) : List (String × List String) → Option (List String)
  | [] => none
  | kv :: rest => if k = kv.1 then some kv.2 else dict_get k rest

/-- The three lines appended to the correction prompt for each invalid entry;
`none` models the `KeyError` raised when the type of an entry is not a key of
`allowed_fields_map`. -/
def correction_blocks (allowed_fields_map : List (String × List String)) :
    List InvalidEntry → Option (List String)
  | [] => some []
  | inv :: rest =>
    match dict_get inv.ty allowed_fields_map with
    | none => none
    | some fs =>
      (correction_blocks allowed_fields_map rest).map (fun ls =>
        ("Error: field \x27" ++ inv.field ++ "\x27 is not allowed on type \x27"
            ++ inv.ty ++ "\x27.")
          :: ("Allowed fields for " ++ inv.ty ++ ": " ++ String.intercalate ", " fs)
          :: "Please regenerate the query using only allowed fields. Prefer id and name where appropriate."
          :: ls)

/-- `build_correction_prompt`: header lines, per-invalid feedback blocks, and
the output-format footer, joined by blank lines. -/
def build_correction_prompt (intent original_query : String)
    (invalids : List InvalidEntry)
    (allowed_fields_map : List (String × List String)) : Option String :=
  (correction_blocks allowed_fields_map invalids).map (fun blocks =>
    String.intercalate "\n\n"
      (["The previously generated GraphQL query failed validation.",
        "User intent: " ++ intent,
        "Original query:\n```graphql\n" ++ original_query ++ "\n```"]
        ++ blocks
        ++ ["Return only the corrected query in a ```graphql ... ``` block and variables in ```json ... ```."]))

/-! ## utils/validation.py -/

/-- The literal opening of the `extract_invalids` pattern. -/
def invalidPat1 : List Char := "Cannot query field \x27".toList

/-- The literal middle of the `extract_invalids` pattern. -/
def invalidPat2 : List Char := "\x27 on type \x27".toList

/-- One `re.search` of
`Cannot query field \x27([^\x27]+)\x27 on type \x27([^\x27]+)\x27` in an
error message: at each start position the two `[^\x27]+` groups are forced to
the maximal apostrophe-free nonempty runs. -/
def matchInvalid (e : String) : Option InvalidEntry :=
  reScan (fun t =>
    if invalidPat1.isPrefixOf t then
      let r1 := t.drop invalidPat1.length
      let g1 := r1.takeWhile (fun c => c ≠ apos)
      if g1.isEmpty then none
      else
        let r2 := r1.drop g1.length
        if invalidPat2.isPrefixOf r2 then
          let g2 := (r2.drop invalidPat2.length).takeWhile (fun c => c ≠ apos)
          if g2.isEmpty then none
          else if ((r2.drop invalidPat2.length).drop g2.length).isEmpty then none
          else some ⟨String.mk g1, String.mk g2⟩
        else none
    else none) e.toList

/-- `extract_invalids`: one pass over the error messages, appending one entry
per message whose text matches the pattern. -/
def extract_invalids (errors : List String) : List InvalidEntry :=
  errors.foldl (fun acc e =>
    match matchInvalid e with
    | some inv => acc ++ [inv]
    | none => acc) []

/-! ## utils/neo4j_store.py -/

/-- Variables required by `check_env_vars` when called with its default list. -/
def required_env_vars : List String :=
  ["NEO4J_URI", "NEO4J_USER", "NEO4J_PASSWORD", "LLM_API_KEY", "LLM_BASE_URL", "LLM_MODEL"]

/-- The sublist passed to `check_env_vars` by `init_graph_driver`. -/
def neo4j_env_vars : List String := ["NEO4J_URI", "NEO4J_USER", "NEO4J_PASSWORD"]

/-- `check_env_vars`: raises `ValueError` naming the unset variables when one
of `required` is unset or empty, else returns the settings. -/
def check_env_vars (env : String → Option String) (required : List String) :
    Except PyErr (List (String × String)) :=
  let missing := required.filter (fun v => (env v).isNone)
  if missing.isEmpty then
    .ok (required.map (fun v => (v, (env v).getD "")))
  else
    .error (.valueError
      ("Missing required environment variables: " ++ String.intercalate ", " missing))

/-- The state of the Neo4j database.  The application only ever creates
`Type` nodes (keyed by name), `Field` nodes (keyed by name and parent type
name), `HAS_FIELD` edges (stored as source type name, field name, field
parent type name) and `HAS_RELATION` edges (source type name, destination
type name, `field` property). -/
structure Store where
  types : List String
  fields : List (String × String)
  hasField : List (String × String × String)
  relations : List (String × String × String)
  deriving DecidableEq, Repr

/-- The empty database, the state after `MATCH (n) DETACH DELETE n`. -/
def Store.empty : Store := ⟨[], [], [], []⟩

/-- The count returned by `MATCH (n) RETURN count(n)`. -/
def nodeCount (st : Store) : Nat := st.types.length + st.fields.length

/-- `is_graph_built`: with `rebuild` the store is cleared and `False`
returned; otherwise a read-only count query decides whether any node
exists.  The second component is the store after the call. -/
def is_graph_built (st : Store) (rebuild : Bool) : Bool × Store :=
  if rebuild then (false, Store.empty)
  else (decide (nodeCount st > 0), st)

/-! ### build_graph

The SDL file `./schema/schema.graphql` is an external input, given here
already parsed: `build_schema(sdl).type_map` is a `SchemaDoc`, one entry per
name of the type map in iteration order, where `fields = none` models a type
object without a `fields` attribute (scalars).  Note that the membership
test `field_type in type_map` of the source ranges over every name of the
type map, so `docNames` lists them all. -/

structure TypeDef where
  name : String
  fields : Option (List (String × String))
  deriving DecidableEq, Repr

/-- The parsed schema document: the `type_map` of the built SDL schema. -/
abbrev SchemaDoc := List TypeDef

/-- All keys of the type map. -/
def docNames (doc : SchemaDoc) : List String := doc.map (·.name)

/-- `MERGE (t:Type \x7bname:$name\x7d)`. -/
def mergeType (st : Store) (n : String) : Store :=
  if n ∈ st.types then st else { st with types := st.types ++ [n] }

/-- The three-clause merge creating a `Field` node, its parent `Type` node
and the `HAS_FIELD` edge between them. -/
def mergeFieldAndEdge (st : Store) (tname fname : String) : Store :=
  let st1 :=
    if (fname, tname) ∈ st.fields then st
    else { st with fields := st.fields ++ [(fname, tname)] }
  let st2 := mergeType st1 tname
  if (tname, fname, tname) ∈ st2.hasField then st2
  else { st2 with hasField := st2.hasField ++ [(tname, fname, tname)] }

/-- The three-clause merge creating both `Type` endpoints and the labelled
`HAS_RELATION` edge. -/
def mergeRelation (st : Store) (src dst fname : String) : Store :=
  let st1 := mergeType st src
  let st2 := mergeType st1 dst
  if (src, dst, fname) ∈ st2.relations then st2
  else { st2 with relations := st2.relations ++ [(src, dst, fname)] }

/-- The store mutation of `build_graph`: for every non-introspection entry of
the type map having fields, merge the type node, and for every field merge
the field node with its containment edge and, when the resolved base type
name is a key of the type map, the labelled relation edge. -/
def build_graph_store (doc : SchemaDoc) (st : Store) : Store :=
  doc.foldl (fun st td =>
    if td.name.startsWith "__" then st
    else
      match td.fields with
      | none => st
      | some fs =>
        let st := mergeType st td.name
        fs.foldl (fun st fe =>
          let st := mergeFieldAndEdge st td.name fe.1
          if fe.2 ∈ docNames doc then mergeRelation st td.name fe.2 fe.1 else st) st) st

/-- `build_graph`: perform the merges, then report `is_graph_built` of the
resulting store. -/
def build_graph (doc : SchemaDoc) (st : Store) : Bool × Store :=
  let st' := build_graph_store doc st
  ((is_graph_built st' false).1, st')

/-- `get_schema_types`: `MATCH (t:Type) RETURN t.name`. -/
def get_schema_types (st : Store) : List String := st.types

/-! ### get_schema_snippet -/

/-- One line of the snippet body.  Python renders
`  field: [dstType]` only when `row["dstType"]` is truthy, so a `None`
destination and an empty-string destination both fall to the bare form. -/
def rowLine (row : String × Option String) : String :=
  match row.2 with
  | some d => if d = "" then "  " ++ row.1 else "  " ++ row.1 ++ ": [" ++ d ++ "]"
  | none => "  " ++ row.1

/-- Insert one row into a list sorted by field name, after any row with an
equal name (a stable insertion). -/
def insertRow (x : String × Option String) :
    List (String × Option String) → List (String × Option String)
  | [] => [x]
  | y :: ys => if strLt x.1.toList y.1.toList then x :: y :: ys else y :: insertRow x ys

/-- Stable sort of the rows by field name, the `ORDER BY f.name` of the
snippet query. -/
def sortRows (rows : List (String × Option String)) : List (String × Option String) :=
  rows.foldl (fun acc x => insertRow x acc) []

/-- The row set of the snippet query before ordering: one row per
`HAS_FIELD` edge of the type (the edge must join existing `Type` and
`Field` nodes for the `MATCH` to produce it), paired through the
`OPTIONAL MATCH` with each `HAS_RELATION` edge of the type whose `field`
property equals the field name and whose destination is a `Type` node —
or with `null` when no such relation exists. -/
def snippetRows (st : Store) (t : String) : List (String × Option String) :=
  (st.hasField.filter (fun e =>
      e.1 = t && decide (t ∈ st.types) && decide ((e.2.1, e.2.2) ∈ st.fields))).flatMap
    (fun e =>
      match st.relations.filter (fun r =>
          r.1 = t && r.2.2 = e.2.1 && decide (r.2.1 ∈ st.types)) with
      | [] => [(e.2.1, none)]
      | rels => rels.map (fun r => (e.2.1, some r.2.1)))

/-- `get_schema_snippet`: header line, one line per ordered row, closing
brace, joined by newlines. -/
def get_schema_snippet (st : Store) (type_name : String) : String :=
  String.intercalate "\n"
    (("type " ++ type_name ++ " \x7b")
      :: (sortRows (snippetRows st type_name)).map rowLine
      ++ ["\x7d"])

/-! ### get_schema_paths -/

/-- A returned path row: the node names and the relation `field` labels. -/
structure PathRec where
  nodes : List String
  fields : List String
  deriving DecidableEq, Repr

/-- All directed walks of exactly `k` `HAS_RELATION` edges from `src` to
`dst`. -/
def pathsLen (st : Store) : Nat → String → String → List PathRec
  | 0, src, dst => if src = dst then [⟨[src], []⟩] else []
  | k + 1, src, dst =>
    (st.relations.filter (fun r => r.1 = src)).flatMap (fun r =>
      (pathsLen st k r.2.1 dst).map (fun p => ⟨src :: p.nodes, r.2.2 :: p.fields⟩))

/-- Search hop counts `k, k+1, …` while `remaining` allows, returning the
walks of the first length at which any exists. -/
def shortest_paths_go (st : Store) (src dst : String) : Nat → Nat → List PathRec
  | _, 0 => []
  | k, r + 1 =>
    let ps := pathsLen st k src dst
    if ps.isEmpty then shortest_paths_go st src dst (k + 1) r else ps

/-- `get_schema_paths`: the `shortestPath` query over
`[:HAS_RELATION*..max_hops]` between the two named `Type` nodes.  Modelled
as the set of all minimum-length relation walks of between 1 and `max_hops`
hops (a minimum-length walk repeats no edge, so these are exactly the
shortest Cypher paths; the engine returns a subset of them, and is empty
exactly when this list is).  When either endpoint is not a `Type` node the
`MATCH` produces no row. -/
def get_schema_paths (st : Store) (src dst : String) (max_hops : Nat) : List PathRec :=
  if src ∈ st.types ∧ dst ∈ st.types then shortest_paths_go st src dst 1 max_hops
  else []

/-! `validate_query` is the external graphql-core validator applied to the
canonical `schema.json`; the orchestrator receives it abstractly as
`validator : String → List String`.  Its own `try/except` turns every parse
or validation failure into list entries, so it never raises. -/

/-- The inline Cypher of the correction loop reading the allowed fields of a
type: `MATCH (t:Type \x7bname:$t\x7d)-[:HAS_FIELD]->(f:Field) RETURN f.name`. -/
def allowed_fields (st : Store) (t : String) : List String :=
  (st.hasField.filter (fun e =>
      e.1 = t && decide (t ∈ st.types) && decide ((e.2.1, e.2.2) ∈ st.fields))).map
    (fun e => e.2.1)

/-! ## main.py -/

/-- The `errors` value of the returned dict: the source returns the list
`[str(e) for e in errors]` when errors remain, and the literal `\x7b\x7d`
— an empty dict, not a list — on the success path. -/
inductive ErrsField where
  | ofList : List String → ErrsField
  | emptyDict : ErrsField
  deriving DecidableEq, Repr

/-- The structured dict returned by `generate_graphql_with_inference`. -/
inductive GenResult where
  | errorOnly : String → GenResult
  | errorRaw : (error : String) → (raw : String) → GenResult
  | done : (query : String) → (vars : JsonVal) → (errors : ErrsField) → GenResult
  deriving Repr

/-- Step 9 of the pipeline: the final returned dict. -/
def final_result (q : String) (vars : JsonVal) (errors : List String) : GenResult :=
  match errors with
  | [] => .done q vars .emptyDict
  | es => .done q vars (.ofList es)

/-- The correction loop of steps 8–9 of `generate_graphql_with_inference`.
`fuel` is `max_retries - retries`; each iteration requires remaining errors
and remaining fuel, rebuilds the allowed-fields map from the store, builds
the correction prompt (a `KeyError` would escape as an exception), calls the
model once and re-validates the newly extracted query.  `calls` counts the
`llm.predict` calls made so far; an extracted query that is `None` or empty
(both falsy) aborts with the correction failure result. -/
def correction_loop (st : Store) (llm : Nat → String → String)
    (jl : String → Option JsonVal) (validator : String → List String)
    (intent : String) :
    Nat → String → JsonVal → List String → Nat → Except PyErr (GenResult × Nat)
  | 0, q, vars, errors, calls => .ok (final_result q vars errors, calls)
  | fuel + 1, q, vars, errors, calls =>
    match errors with
    | [] => .ok (final_result q vars [], calls)
    | _ :: _ =>
      let invalids := extract_invalids errors
      let allowed_fields_map := invalids.map (fun inv => (inv.ty, allowed_fields st inv.ty))
      match build_correction_prompt intent q invalids allowed_fields_map with
      | none => .error (.keyError "type not in allowed_fields_map")
      | some cp =>
        let response := llm calls cp
        let (qOpt, vars') := extract_query_and_vars jl response
        match qOpt with
        | none => .ok (.errorRaw "Correction step failed" response, calls + 1)
        | some q' =>
          if q' = "" then .ok (.errorRaw "Correction step failed" response, calls + 1)
          else correction_loop st llm jl validator intent fuel q' vars' (validator q') (calls + 1)

/-- Steps 2–9 of `generate_graphql_with_inference`, from the point where the
schema store is known to be built: infer the types (one `predict` call),
look the path up, prompt for generation (a second call), extract, validate,
and run the correction loop. -/
def generate_from_store (env : String → Option String) (st : Store)
    (llm : Nat → String → String) (jl : String → Option JsonVal)
    (validator : String → List String)
    (user_intent : String) (max_hops : Nat) (max_retries : Nat) :
    Except PyErr (GenResult × Nat) :=
  let schema_types := get_schema_types st
  match check_llm_env_vars env with
  | .error e => .error e
  | .ok _ =>
  let inferred := llm 0 (infer_types_prompt user_intent schema_types)
  match parse_types jl inferred with
  | .error e => .error e
  | .ok (src_t, dst_t) =>
  let src := pyStr src_t
  let dst := pyStr dst_t
  let paths := get_schema_paths st src dst max_hops
  if paths.isEmpty then
    .ok (.errorOnly ("No valid schema path found between " ++ src ++ " and " ++ dst), 1)
  else
    let schema_path := String.intercalate "\n" (paths.map (fun p =>
      String.intercalate " -> " p.nodes ++ " via " ++ String.intercalate " -> " p.fields))
    let schema_snippets := get_schema_snippet st src
    let prompt := graphql_prompt_format user_intent schema_path schema_snippets
    let response := llm 1 prompt
    let (qOpt, variablesV) := extract_query_and_vars jl response
    match qOpt with
    | none => .ok (.errorRaw "Invalid LLM output" response, 2)
    | some q =>
      if q = "" then .ok (.errorRaw "Invalid LLM output" response, 2)
      else
        let errors := validator q
        correction_loop st llm jl validator user_intent max_retries q variablesV errors 2

/-- `generate_graphql_with_inference`.  Parameters: the environment, the
parsed SDL document, the database state, the model oracle, the JSON parser
and the validator, then the three Python arguments.  Returns the structured
result together with the number of `llm.predict` calls performed, or the
Python exception that escaped. -/
def generate (env : String → Option String) (doc : SchemaDoc) (st : Store)
    (llm : Nat → String → String) (jl : String → Option JsonVal)
    (validator : String → List String)
    (user_intent : String) (max_hops : Nat) (max_retries : Nat) :
    Except PyErr (GenResult × Nat) :=
  match check_env_vars env required_env_vars with
  | .error e => .error e
  | .ok _ =>
  match check_llm_env_vars env with
  | .error e => .error e
  | .ok _ =>
  match check_env_vars env neo4j_env_vars with
  | .error e => .error e
  | .ok _ =>
  if (is_graph_built st false).1 then
    generate_from_store env st llm jl validator user_intent max_hops max_retries
  else
    let bg := build_graph doc st
    if bg.1 then
      generate_from_store env bg.2 llm jl validator user_intent max_hops max_retries
    else .error (.runtimeError "Error Building schema graph.")

/-! ## Specification-side definitions (for refinement claims) -/

/-- The relation target of a field of `t`: the destination of the first
`HAS_RELATION` edge of `t` labelled with the field name (unique in
well-formed stores). -/
def relTarget (st : Store) (t f : String) : Option String :=
  ((st.relations.filter (fun r =>
      r.1 = t && r.2.2 = f && decide (r.2.1 ∈ st.types))).head?).map (fun r => r.2.1)

/-- The fields of `t` (one per `HAS_FIELD` edge) with their relation
targets. -/
def fieldTargets (st : Store) (t : String) : List (String × Option String) :=
  (st.hasField.filter (fun e =>
      e.1 = t && decide (t ∈ st.types) && decide ((e.2.1, e.2.2) ∈ st.fields))).map
    (fun e => (e.2.1, relTarget st t e.2.1))

/-- One line per field as the specification words it: `  field: [target]`
when the field has a relation target, else `  field`. -/
def specFieldLine : String × Option String → String
  | (f, some tgt) => "  " ++ f ++ ": [" ++ tgt ++ "]"
  | (f, none) => "  " ++ f

/-- The snippet rendering as the specification describes `fieldSnippet`:
opening `type <Name> \x7b`, one line per field ordered lexicographically by
name, closing `\x7d`. -/
def fieldSnippetSpec (typeName : String)
    (fieldsWithTargets : List (String × Option String)) : String :=
  String.intercalate "\n"
    (("type " ++ typeName ++ " \x7b")
      :: (sortRows fieldsWithTargets).map specFieldLine
      ++ ["\x7d"])

/-! ## Write items (for the idempotence of build_graph) -/

/-- One merged node or edge, identified by its natural key. -/
inductive StoreItem where
  | typeNode : String → StoreItem
  | fieldNode : String → String → StoreItem
  | hasFieldEdge : String → String → String → StoreItem
  | relEdge : String → String → String → StoreItem
  deriving DecidableEq, Repr

/-- The effect of one `MERGE` clause: insert the node or edge unless its
natural key is already present. -/
def applyItem (st : Store) : StoreItem → Store
  | .typeNode n => if n ∈ st.types then st else { st with types := st.types ++ [n] }
  | .fieldNode f p =>
    if (f, p) ∈ st.fields then st else { st with fields := st.fields ++ [(f, p)] }
  | .hasFieldEdge t f p =>
    if (t, f, p) ∈ st.hasField then st
    else { st with hasField := st.hasField ++ [(t, f, p)] }
  | .relEdge s d f =>
    if (s, d, f) ∈ st.relations then st
    else { st with relations := st.relations ++ [(s, d, f)] }

/-- Whether the node or edge is present in the store. -/
def itemIn (st : Store) : StoreItem → Prop
  | .typeNode n => n ∈ st.types
  | .fieldNode f p => (f, p) ∈ st.fields
  | .hasFieldEdge t f p => (t, f, p) ∈ st.hasField
  | .relEdge s d f => (s, d, f) ∈ st.relations

/-- The merge items issued for one field of one type. -/
def fieldItems (doc : SchemaDoc) (tname : String) (fe : String × String) : List StoreItem :=
  [.fieldNode fe.1 tname, .typeNode tname, .hasFieldEdge tname fe.1 tname]
    ++ (if fe.2 ∈ docNames doc
        then [.typeNode tname, .typeNode fe.2, .relEdge tname fe.2 fe.1]
        else [])

/-- The merge items issued for one entry of the type map. -/
def typeItems (doc : SchemaDoc) (td : TypeDef) : List StoreItem :=
  if td.name.startsWith "__" then []
  else
    match td.fields with
    | none => []
    | some fs => .typeNode td.name :: fs.flatMap (fieldItems doc td.name)

/-- Every merge item issued by one run of `build_graph`, in issue order. -/
def docItems (doc : SchemaDoc) : List StoreItem := doc.flatMap (typeItems doc)

/-! ## Concrete fixtures

Closed inputs used by the witness and counterexample theorems below. -/

/-- An environment with every variable set. -/
def envA : String → Option String := fun _ => some "x"

/-- An environment with no variable set. -/
def envNone : String → Option String := fun _ => none

/-- An empty schema document (the store fixtures are already built). -/
def docA : SchemaDoc := []

/-- A built store with a `Workbook -[owner]-> TableauUser` relation. -/
def stA : Store :=
  { types := ["Workbook", "TableauUser"]
    fields := [("name", "Workbook"), ("owner", "Workbook"), ("name", "TableauUser")]
    hasField := [("Workbook", "name", "Workbook"), ("Workbook", "owner", "Workbook"),
                 ("TableauUser", "name", "TableauUser")]
    relations := [("Workbook", "TableauUser", "owner")] }

/-- A built store with the same two types but no relation at all. -/
def stC : Store :=
  { types := ["Workbook", "TableauUser"]
    fields := [("name", "Workbook")]
    hasField := [("Workbook", "name", "Workbook")]
    relations := [] }

/-- A type-inference reply naming the two fixture types. -/
def inferRespA : String :=
  "\x7b\"src_type\": \"Workbook\", \"dst_type\": \"TableauUser\"\x7d"

/-- A generation reply with a fenced query block and no variables. -/
def genRespA : String := "```graphql\nquery X\n```"

/-- A model oracle answering the inference call with `inferRespA` and every
other call with `genRespA`. -/
def llmA : Nat → String → String := fun k _ => if k = 0 then inferRespA else genRespA

/-- A JSON parser fixture succeeding exactly on the spans the fixtures
produce. -/
def jlA : String → Option JsonVal := fun s =>
  if s = inferRespA then
    some (.jobj [("src_type", .jstr "Workbook"), ("dst_type", .jstr "TableauUser")])
  else if s = "\x7b\"first\": 10\x7d" then
    some (.jobj [("first", .jnum 10)])
  else none

/-- A validator accepting everything. -/
def valOK : String → List String := fun _ => []

/-- A validator rejecting everything with a message that does not match the
field-violation pattern. -/
def valBad : String → List String := fun _ => ["boom"]

/-! ## Generic list lemmas -/

theorem foldl_flatMap {α β γ : Type} (f : γ → α → γ) (g : β → List α)
    (xs : List β) (acc : γ) :
    List.foldl f acc (xs.flatMap g) = xs.foldl (fun acc x => (g x).foldl f acc) acc := by
  induction xs generalizing acc with
  | nil => rfl
  | cons x xs ih => simp only [List.flatMap_cons, List.foldl_append, List.foldl_cons, ih]

theorem foldl_ext {α γ : Type} (f g : γ → α → γ) (xs : List α)
    (h : ∀ acc x, x ∈ xs → f acc x = g acc x) (acc : γ) :
    List.foldl f acc xs = List.foldl g acc xs := by
  induction xs generalizing acc with
  | nil => rfl
  | cons x xs ih =>
    simp only [List.foldl_cons]
    rw [h acc x (by simp), ih (fun a y hy => h a y (by simp [hy]))]

/-! ## Idempotence machinery for build_graph -/

theorem itemIn_applyItem_self (st : Store) (it : StoreItem) : itemIn (applyItem st it) it := by
  cases it <;> simp only [applyItem, itemIn] <;> split <;>
    simp_all [List.mem_append]

theorem itemIn_applyItem_mono (st : Store) (it it' : StoreItem)
    (h : itemIn st it') : itemIn (applyItem st it) it' := by
  cases it <;> cases it' <;> simp only [applyItem, itemIn] at h ⊢ <;> split <;>
    simp_all [List.mem_append]

theorem applyItem_of_itemIn (st : Store) (it : StoreItem)
    (h : itemIn st it) : applyItem st it = st := by
  cases it <;> simp only [applyItem, itemIn] at h ⊢ <;> simp [h]

theorem itemIn_foldl_mono (its : List StoreItem) (st : Store) (it : StoreItem)
    (h : itemIn st it) : itemIn (List.foldl applyItem st its) it := by
  induction its generalizing st with
  | nil => exact h
  | cons x xs ih => exact ih _ (itemIn_applyItem_mono _ _ _ h)

theorem itemIn_foldl_all (its : List StoreItem) (st : Store) :
    ∀ it ∈ its, itemIn (List.foldl applyItem st its) it := by
  induction its generalizing st with
  | nil => intro it h; cases h
  | cons x xs ih =>
    intro it h
    simp only [List.foldl_cons]
    rcases List.mem_cons.mp h with rfl | h
    · exact itemIn_foldl_mono xs (applyItem st it) it (itemIn_applyItem_self st it)
    · exact ih (applyItem st x) it h

theorem foldl_applyItem_of_all (its : List StoreItem) (st : Store)
    (h : ∀ it ∈ its, itemIn st it) : List.foldl applyItem st its = st := by
  induction its with
  | nil => rfl
  | cons x xs ih =>
    simp only [List.foldl_cons]
    rw [applyItem_of_itemIn _ _ (h x (by simp))]
    exact ih (fun it hit => h it (by simp [hit]))

theorem build_graph_store_eq_items (doc : SchemaDoc) (st : Store) :
    build_graph_store doc st = (docItems doc).foldl applyItem st := by
  rw [docItems, foldl_flatMap]
  unfold build_graph_store
  apply foldl_ext
  intro acc td _
  unfold typeItems
  by_cases hs : td.name.startsWith "__"
  · simp [hs]
  · simp only [hs, Bool.false_eq_true, if_false]
    cases td.fields with
    | none => rfl
    | some fs =>
      simp only [List.foldl_cons]
      rw [foldl_flatMap]
      apply foldl_ext
      intro acc2 fe _
      by_cases hm : fe.2 ∈ docNames doc
      · simp [fieldItems, hm, mergeFieldAndEdge, mergeRelation, mergeType, applyItem]
      · simp [fieldItems, hm, mergeFieldAndEdge, mergeRelation, mergeType, applyItem]

/-- Claim C9: importing the same schema document twice leaves exactly the
store of a single import — every write is a merge on the natural key
(type name; field name and parent type name; source, destination and field
label), so the second run inserts nothing.  The resulting `Store` is equal
componentwise, hence equal as a set of nodes and edges. -/
theorem claimC9 (doc : SchemaDoc) (st : Store) :
    build_graph_store doc (build_graph_store doc st) = build_graph_store doc st := by
  rw [build_graph_store_eq_items, build_graph_store_eq_items]
  exact foldl_applyItem_of_all _ _ (itemIn_foldl_all _ _)

/-- Claim C10: with `rebuild=False` the existence check leaves the store
unchanged (its only query is the read-only node count, returned as the
truth of `count > 0`); only `rebuild=True` clears the store. -/
theorem claimC10 (st : Store) :
    (is_graph_built st false).2 = st
    ∧ (is_graph_built st true).2 = Store.empty
    ∧ (is_graph_built st false).1 = decide (nodeCount st > 0) :=
  ⟨rfl, rfl, rfl⟩

/-! ## Claim C7 -/

theorem extract_invalids_eq_filterMap (msgs : List String) :
    extract_invalids msgs = msgs.filterMap matchInvalid := by
  suffices h : ∀ acc, msgs.foldl (fun acc e =>
      match matchInvalid e with
      | some inv => acc ++ [inv]
      | none => acc) acc = acc ++ msgs.filterMap matchInvalid by
    simpa [extract_invalids] using h []
  induction msgs with
  | nil => simp
  | cons m rest ih =>
    intro acc
    cases hm : matchInvalid m <;>
      simp [List.filterMap_cons, hm, ih, List.append_assoc]

/-- Claim C7: `extract_invalids` keeps exactly the messages matching the
disallowed-field-on-type pattern, one `\x7bfield, type\x7d` entry per
matching message, silently dropping the rest; in particular a list of only
non-matching messages yields no entry, and the correction prompt is still
built, consisting of the three header lines and the footer with zero
per-type feedback blocks, whatever the allowed-fields map is. -/
theorem claimC7 (msgs : List String) (intent q : String)
    (M : List (String × List String)) :
    extract_invalids msgs = msgs.filterMap matchInvalid
    ∧ ((∀ m ∈ msgs, matchInvalid m = none) →
        extract_invalids msgs = []
        ∧ build_correction_prompt intent q [] M =
            some (String.intercalate "\n\n"
              ["The previously generated GraphQL query failed validation.",
               "User intent: " ++ intent,
               "Original query:\n```graphql\n" ++ q ++ "\n```",
               "Return only the corrected query in a ```graphql ... ``` block and variables in ```json ... ```."])) := by
  refine ⟨extract_invalids_eq_filterMap msgs, fun h => ⟨?_, rfl⟩⟩
  rw [extract_invalids_eq_filterMap]
  exact List.filterMap_eq_nil_iff.mpr h

/-- Witness for claim C7 at a concrete non-matching error list. -/
theorem claimC7_witness :
    extract_invalids ["Syntax Error: Unexpected Name."] = []
    ∧ build_correction_prompt "intent" "query X" [] [] =
        some (String.intercalate "\n\n"
          ["The previously generated GraphQL query failed validation.",
           "User intent: " ++ "intent",
           "Original query:\n```graphql\n" ++ "query X" ++ "\n```",
           "Return only the corrected query in a ```graphql ... ``` block and variables in ```json ... ```."]) :=
  (claimC7 ["Syntax Error: Unexpected Name."] "intent" "query X" []).2
    (by intro m hm; simp at hm; subst hm; rfl)

/-! ## Lemmas on the correction loop and the orchestrator -/

theorem dict_get_map_isSome (f : String → List String) (full : List InvalidEntry)
    (inv : InvalidEntry) (h : inv ∈ full) :
    (dict_get inv.ty (full.map (fun i => (i.ty, f i.ty)))).isSome := by
  induction full with
  | nil => cases h
  | cons i rest ih =>
    simp only [List.map_cons, dict_get]
    by_cases he : inv.ty = i.ty
    · simp [he]
    · rcases List.mem_cons.mp h with rfl | h
      · exact absurd rfl he
      · simpa [he] using ih h

theorem correction_blocks_isSome (M : List (String × List String)) :
    ∀ l : List InvalidEntry, (∀ inv ∈ l, (dict_get inv.ty M).isSome) →
      (correction_blocks M l).isSome := by
  intro l
  induction l with
  | nil => intro _; simp [correction_blocks]
  | cons inv rest ih =>
    intro h
    have hh := h inv (by simp)
    rcases ho : dict_get inv.ty M with _ | fs
    · rw [ho] at hh; cases hh
    · have hr := ih (fun i hi => h i (by simp [hi]))
      rcases hrv : correction_blocks M rest with _ | bs
      · rw [hrv] at hr; cases hr
      · simp [correction_blocks, ho, hrv]

theorem build_correction_prompt_map_isSome (intent q : String)
    (invalids : List InvalidEntry) (f : String → List String) :
    (build_correction_prompt intent q invalids
        (invalids.map (fun i => (i.ty, f i.ty)))).isSome := by
  have h := correction_blocks_isSome (invalids.map (fun i => (i.ty, f i.ty))) invalids
    (fun inv hi => dict_get_map_isSome f invalids inv hi)
  unfold build_correction_prompt
  rcases hb : correction_blocks (invalids.map (fun i => (i.ty, f i.ty))) invalids with _ | bs
  · rw [hb] at h; cases h
  · rw [hb]; rfl

theorem correction_loop_ok_spec (st : Store) (llm : Nat → String → String)
    (jl : String → Option JsonVal) (validator : String → List String) (intent : String) :
    ∀ (fuel : Nat) (q : String) (vars : JsonVal) (errors : List String) (calls : Nat)
      (res : GenResult) (n : Nat),
      correction_loop st llm jl validator intent fuel q vars errors calls = .ok (res, n) →
      errors = validator q →
      n ≤ calls + fuel ∧
        ∀ q' v' ef, res = .done q' v' ef →
          (ef = .emptyDict ∧ validator q' = []) ∨
          (ef = .ofList (validator q') ∧ validator q' ≠ []) := by
  intro fuel
  induction fuel with
  | zero =>
    intro q vars errors calls res n h herr
    simp only [correction_loop, Except.ok.injEq, Prod.mk.injEq] at h
    obtain ⟨hres, hn⟩ := h
    subst hn
    refine ⟨Nat.le_add_right _ _, fun q' v' ef hdone => ?_⟩
    rw [← hres] at hdone
    cases herrs : errors with
    | nil =>
      rw [herrs] at hdone
      simp only [final_result, GenResult.done.injEq] at hdone
      obtain ⟨hq, _, hef⟩ := hdone
      exact Or.inl ⟨hef.symm, by rw [← hq, ← herr, herrs]⟩
    | cons e es =>
      rw [herrs] at hdone
      simp only [final_result, GenResult.done.injEq] at hdone
      obtain ⟨hq, _, hef⟩ := hdone
      refine Or.inr ⟨?_, ?_⟩
      · rw [← hef, ← hq, ← herr, herrs]
      · rw [← hq, ← herr, herrs]; simp
  | succ fuel ih =>
    intro q vars errors calls res n h herr
    cases herrs : errors with
    | nil =>
      subst herrs
      simp only [correction_loop, Except.ok.injEq, Prod.mk.injEq] at h
      obtain ⟨hres, hn⟩ := h
      subst hn
      refine ⟨Nat.le_add_right _ _, fun q' v' ef hdone => ?_⟩
      rw [← hres] at hdone
      simp only [final_result, GenResult.done.injEq] at hdone
      obtain ⟨hq, _, hef⟩ := hdone
      exact Or.inl ⟨hef.symm, by rw [← hq, ← herr]⟩
    | cons e es =>
      subst herrs
      simp only [correction_loop] at h
      split at h
      · exact Except.noConfusion h
      · split at h
        · simp only [Except.ok.injEq, Prod.mk.injEq] at h
          obtain ⟨hres, hn⟩ := h
          refine ⟨by omega, fun q' v' ef hdone => ?_⟩
          rw [← hres] at hdone; cases hdone
        · split at h
          · simp only [Except.ok.injEq, Prod.mk.injEq] at h
            obtain ⟨hres, hn⟩ := h
            refine ⟨by omega, fun q'' v'' ef hdone => ?_⟩
            rw [← hres] at hdone; cases hdone
          · obtain ⟨hb, hd⟩ := ih _ _ _ _ res n h rfl
            exact ⟨by omega, hd⟩

theorem correction_loop_total (st : Store) (llm : Nat → String → String)
    (jl : String → Option JsonVal) (validator : String → List String) (intent : String) :
    ∀ (fuel : Nat) (q : String) (vars : JsonVal) (errors : List String) (calls : Nat),
      ∃ res n, correction_loop st llm jl validator intent fuel q vars errors calls
        = .ok (res, n) := by
  intro fuel
  induction fuel with
  | zero => intro q vars errors calls; exact ⟨_, _, rfl⟩
  | succ fuel ih =>
    intro q vars errors calls
    cases errors with
    | nil => exact ⟨_, _, rfl⟩
    | cons e es =>
      obtain ⟨cp, hcp⟩ := Option.isSome_iff_exists.mp
        (build_correction_prompt_map_isSome intent q
          (extract_invalids (e :: es)) (allowed_fields st))
      simp only [correction_loop, hcp]
      rcases hE : (extract_query_and_vars jl (llm calls cp)).1 with _ | q'
      · simp only [hE]; exact ⟨_, _, rfl⟩
      · simp only [hE]
        by_cases hq : q' = ""
        · simp only [hq, if_true]; exact ⟨_, _, rfl⟩
        · simp only [hq, if_false]; exact ih q' _ (validator q') (calls + 1)

theorem env_filters_nil (env : String → Option String)
    (henv : required_env_vars.filter (fun v => (env v).isNone) = []) :
    llm_env_vars.filter (fun v => (env v).isNone) = []
    ∧ neo4j_env_vars.filter (fun v => (env v).isNone) = [] := by
  have hall := List.filter_eq_nil_iff.mp henv
  constructor
  · refine List.filter_eq_nil_iff.mpr (fun v hv => hall v ?_)
    simp only [llm_env_vars, List.mem_cons, List.not_mem_nil, or_false] at hv
    rcases hv with rfl | rfl | rfl <;> simp [required_env_vars]
  · refine List.filter_eq_nil_iff.mpr (fun v hv => hall v ?_)
    simp only [neo4j_env_vars, List.mem_cons, List.not_mem_nil, or_false] at hv
    rcases hv with rfl | rfl | rfl <;> simp [required_env_vars]

theorem generate_from_store_ok_spec (env : String → Option String) (st : Store)
    (llm : Nat → String → String) (jl : String → Option JsonVal)
    (validator : String → List String) (intent : String) (mh mr : Nat)
    (res : GenResult) (n : Nat)
    (h : generate_from_store env st llm jl validator intent mh mr = .ok (res, n)) :
    n ≤ 2 + mr ∧ ∀ q v ef, res = .done q v ef →
      (ef = .emptyDict ∧ validator q = []) ∨
      (ef = .ofList (validator q) ∧ validator q ≠ []) := by
  unfold generate_from_store at h
  split at h
  · exact Except.noConfusion h
  · dsimp only at h
    split at h
    · exact Except.noConfusion h
    · split at h
      · simp only [Except.ok.injEq, Prod.mk.injEq] at h
        obtain ⟨hres, hn⟩ := h
        refine ⟨by omega, fun q v ef hdone => ?_⟩
        rw [← hres] at hdone; cases hdone
      · split at h
        · simp only [Except.ok.injEq, Prod.mk.injEq] at h
          obtain ⟨hres, hn⟩ := h
          refine ⟨by omega, fun q v ef hdone => ?_⟩
          rw [← hres] at hdone; cases hdone
        · split at h
          · simp only [Except.ok.injEq, Prod.mk.injEq] at h
            obtain ⟨hres, hn⟩ := h
            refine ⟨by omega, fun q' v ef hdone => ?_⟩
            rw [← hres] at hdone; cases hdone
          · obtain ⟨hb, hd⟩ := correction_loop_ok_spec st llm jl validator intent
              mr _ _ _ 2 res n h rfl
            exact ⟨by omega, hd⟩

theorem generate_ok_spec (env : String → Option String) (doc : SchemaDoc) (st : Store)
    (llm : Nat → String → String) (jl : String → Option JsonVal)
    (validator : String → List String) (intent : String) (mh mr : Nat)
    (res : GenResult) (n : Nat)
    (h : generate env doc st llm jl validator intent mh mr = .ok (res, n)) :
    n ≤ 2 + mr ∧ ∀ q v ef, res = .done q v ef →
      (ef = .emptyDict ∧ validator q = []) ∨
      (ef = .ofList (validator q) ∧ validator q ≠ []) := by
  unfold generate at h
  rcases h1 : check_env_vars env required_env_vars with e | s1
  · rw [h1] at h; cases h
  · rw [h1] at h
    rcases h2 : check_llm_env_vars env with e | s2
    · rw [h2] at h; cases h
    · rw [h2] at h
      rcases h3 : check_env_vars env neo4j_env_vars with e | s3
      · rw [h3] at h; cases h
      · rw [h3] at h
        by_cases hb : (is_graph_built st false).1
        · simp only [hb, if_true] at h
          exact generate_from_store_ok_spec env st llm jl validator intent mh mr res n h
        · simp only [hb, if_false] at h
          by_cases hbg : (build_graph doc st).1
          · simp only [hbg, if_true] at h
            exact generate_from_store_ok_spec env (build_graph doc st).2 llm jl validator
              intent mh mr res n h
          · simp only [hbg, if_false] at h; cases h

/-! ## Claim C2 -/

/-- Claim C2: whenever the pipeline returns normally it has invoked the model
at most `2 + max_retries` times in total — one type-inference call plus at
most `1 + max_retries` generation and correction calls — and whenever the
correction loop exits with a non-empty error list after exhausting the
retries, the returned object carries the last extracted query, its
variables, and an errors list exactly equal to the validation errors of
that returned query, as an ordinary result rather than an exception. -/
theorem claimC2 (env : String → Option String) (doc : SchemaDoc) (st : Store)
    (llm : Nat → String → String) (jl : String → Option JsonVal)
    (validator : String → List String) (intent : String) (mh mr : Nat)
    (res : GenResult) (n : Nat)
    (h : generate env doc st llm jl validator intent mh mr = .ok (res, n)) :
    n ≤ 2 + mr ∧ ∀ q v es, res = .done q v (.ofList es) → es = validator q ∧ es ≠ [] := by
  obtain ⟨hb, hd⟩ := generate_ok_spec env doc st llm jl validator intent mh mr res n h
  refine ⟨hb, fun q v es hres => ?_⟩
  rcases hd q v (.ofList es) hres with ⟨hef, _⟩ | ⟨hef, hne⟩
  · exact ErrsField.noConfusion hef
  · have hes : es = validator q := by injection hef
    exact ⟨hes, by rw [hes]; exact hne⟩

/-- Witness for claim C2: a run in which every validation fails exhausts the
two default retries after four total model calls, and returns the final
errors. -/
theorem claimC2_witness :
    (4 : Nat) ≤ 2 + 2 ∧ (["boom"] = valBad "query X" ∧ ["boom"] ≠ []) := by
  have h := claimC2 envA docA stA llmA jlA valBad "intent" 5 2
    (.done "query X" (.jobj []) (.ofList ["boom"])) 4 rfl
  exact ⟨h.1, h.2 "query X" (.jobj []) ["boom"] rfl⟩

/-! ## Claim C3 -/

/-- Counterexample to claim C3: a concrete successful run in which
validation returns the empty list, where the entry point returns an
`errors` value that is the empty dict `\x7b\x7d`, not an empty list of
strings. -/
theorem claimC3_counterexample :
    generate envA docA stA llmA jlA valOK "intent" 5 2 =
      .ok (.done "query X" (.jobj []) .emptyDict, 2)
    ∧ valOK "query X" = []
    ∧ ErrsField.emptyDict ≠ ErrsField.ofList ([] : List String) :=
  ⟨rfl, rfl, by decide⟩

/-- Claim C3 as amended: when validation of the returned query yields an
empty error list, the entry point returns the query string, the variables
mapping, and an errors value that is the empty mapping (the literal
`\x7b\x7d` of the source), not an empty list. -/
theorem claimC3_amended (env : String → Option String) (doc : SchemaDoc) (st : Store)
    (llm : Nat → String → String) (jl : String → Option JsonVal)
    (validator : String → List String) (intent : String) (mh mr : Nat)
    (q : String) (v : JsonVal) (ef : ErrsField) (n : Nat)
    (h : generate env doc st llm jl validator intent mh mr = .ok (.done q v ef, n))
    (hval : validator q = []) :
    ef = .emptyDict := by
  obtain ⟨_, hd⟩ := generate_ok_spec env doc st llm jl validator intent mh mr _ n h
  rcases hd q v ef rfl with ⟨he, _⟩ | ⟨_, hne⟩
  · exact he
  · exact absurd hval hne

/-- Witness for claim C3 as amended, at the concrete successful run. -/
theorem claimC3_witness : (ErrsField.emptyDict : ErrsField) = .emptyDict :=
  claimC3_amended envA docA stA llmA jlA valOK "intent" 5 2
    "query X" (.jobj []) .emptyDict 2 rfl rfl

/-! ## Claim C1 -/

/-- Counterexample to claim C1: with no environment variable set, the raw
`ValueError` of the environment check escapes the public entry point as an
exception instead of being converted into a structured result. -/
theorem claimC1_counterexample :
    generate envNone docA stA llmA jlA valOK "intent" 5 2 =
      .error (.valueError
        "Missing required environment variables: NEO4J_URI, NEO4J_USER, NEO4J_PASSWORD, LLM_API_KEY, LLM_BASE_URL, LLM_MODEL") :=
  rfl

/-- Claim C1 as amended: the environment checks, a failed schema build and a
JSON failure while parsing the type-inference reply DO escape as raised
exceptions; every later internal failure is converted into a structured
result.  Precisely: when the environment variables are set, the store is
built (or the import leaves it non-empty), and the type-inference reply
either contains no JSON object span or parses to a JSON object, the entry
point returns a structured result and raises nothing. -/
theorem claimC1_amended (env : String → Option String) (doc : SchemaDoc) (st : Store)
    (llm : Nat → String → String) (jl : String → Option JsonVal)
    (validator : String → List String) (intent : String) (mh mr : Nat)
    (henv : required_env_vars.filter (fun v => (env v).isNone) = [])
    (hbuild : (is_graph_built st false).1 = true ∨ (build_graph doc st).1 = true)
    (hinfer :
      ∀ st1 : Store,
        (st1 = st ∨ st1 = (build_graph doc st).2) →
        extract_first_json (llm 0 (infer_types_prompt intent (get_schema_types st1))) = none
        ∨ ∃ c m, extract_first_json (llm 0 (infer_types_prompt intent (get_schema_types st1)))
              = some c
            ∧ jl c = some (.jobj m)) :
    ∃ res n, generate env doc st llm jl validator intent mh mr = .ok (res, n) := by
  obtain ⟨h2, h3⟩ := env_filters_nil env henv
  have hfrom : ∀ st1 : Store, (st1 = st ∨ st1 = (build_graph doc st).2) →
      ∃ res n, generate_from_store env st1 llm jl validator intent mh mr = .ok (res, n) := by
    intro st1 hst1
    unfold generate_from_store
    simp only [check_llm_env_vars, h2, List.isEmpty_nil, if_true]
    have hpt : ∃ pr, parse_types jl
        (llm 0 (infer_types_prompt intent (get_schema_types st1))) = .ok pr := by
      rcases hinfer st1 hst1 with hn | ⟨c, m, hc, hm⟩
      · exact ⟨(none, none), by simp [parse_types, hn]⟩
      · exact ⟨(jget m "src_type", jget m "dst_type"), by simp [parse_types, hc, hm]⟩
    obtain ⟨⟨src_t, dst_t⟩, hpt⟩ := hpt
    simp only [hpt]
    by_cases hp : (get_schema_paths st1 (pyStr src_t) (pyStr dst_t) mh).isEmpty = true
    · rw [if_pos hp]; exact ⟨_, _, rfl⟩
    · rw [if_neg hp]
      rcases hE : (extract_query_and_vars jl
          (llm 1 (graphql_prompt_format intent
            (String.intercalate "\n"
              ((get_schema_paths st1 (pyStr src_t) (pyStr dst_t) mh).map (fun p =>
                String.intercalate " -> " p.nodes ++ " via "
                  ++ String.intercalate " -> " p.fields)))
            (get_schema_snippet st1 (pyStr src_t))))).1 with _ | q
      · simp only [hE]; exact ⟨_, _, rfl⟩
      · simp only [hE]
        by_cases hq : q = ""
        · rw [if_pos hq]; exact ⟨_, _, rfl⟩
        · rw [if_neg hq]
          exact correction_loop_total st1 llm jl validator intent mr q _ (validator q) 2
  unfold generate
  simp only [check_env_vars, check_llm_env_vars, henv, h2, h3, List.isEmpty_nil, if_true]
  by_cases hb : (is_graph_built st false).1
  · simp only [hb, if_true]
    exact hfrom st (Or.inl rfl)
  · have hbg : (build_graph doc st).1 = true := by
      rcases hbuild with hbuild | hbuild
      · exact absurd hbuild (by simp [hb])
      · exact hbuild
    simp only [hb, Bool.false_eq_true, if_false, hbg, if_true]
    exact hfrom (build_graph doc st).2 (Or.inr rfl)

/-- Witness for claim C1 as amended, at a fully concrete healthy run. -/
theorem claimC1_witness :
    ∃ res n, generate envA docA stA llmA jlA valOK "intent" 5 2 = .ok (res, n) :=
  claimC1_amended envA docA stA llmA jlA valOK "intent" 5 2 rfl (Or.inl rfl)
    (fun st1 hst1 => by
      rcases hst1 with rfl | rfl
      · exact Or.inr ⟨inferRespA,
          [("src_type", .jstr "Workbook"), ("dst_type", .jstr "TableauUser")], rfl, rfl⟩
      · exact Or.inr ⟨inferRespA,
          [("src_type", .jstr "Workbook"), ("dst_type", .jstr "TableauUser")], rfl, rfl⟩)

/-! ## Claim C4 -/

theorem shortest_paths_go_of_all_empty (st : Store) (src dst : String) :
    ∀ (r k : Nat), (∀ j ∈ List.range' k r, pathsLen st j src dst = []) →
      shortest_paths_go st src dst k r = [] := by
  intro r
  induction r with
  | zero => intro k _; rfl
  | succ r ih =>
    intro k h
    have h0 : pathsLen st k src dst = [] := h k (by simp [List.mem_range'_1])
    simp only [shortest_paths_go, h0, List.isEmpty_nil, if_true]
    exact ih (k + 1)
      (fun j hj => h j (by simp only [List.mem_range'_1] at hj ⊢; omega))

theorem get_schema_paths_of_all_empty (st : Store) (src dst : String) (mh : Nat)
    (h : ∀ k ∈ List.range' 1 mh, pathsLen st k src dst = []) :
    get_schema_paths st src dst mh = [] := by
  unfold get_schema_paths
  split
  · exact shortest_paths_go_of_all_empty st src dst mh 1 h
  · rfl

/-- Claim C4: when the two inferred types admit no relation walk of any
length between 1 and `max_hops`, the entry point returns exactly the
`No valid schema path found between <src> and <dst>` object and the model
has been invoked exactly once — the type-inference call — with no
generation or correction call. -/
theorem claimC4 (env : String → Option String) (doc : SchemaDoc) (st : Store)
    (llm : Nat → String → String) (jl : String → Option JsonVal)
    (validator : String → List String) (intent : String) (mh mr : Nat)
    (c : String) (m : List (String × JsonVal))
    (henv : required_env_vars.filter (fun v => (env v).isNone) = [])
    (hbuilt : (is_graph_built st false).1 = true)
    (hc : extract_first_json (llm 0 (infer_types_prompt intent (get_schema_types st)))
        = some c)
    (hm : jl c = some (.jobj m))
    (hnopath : ∀ k ∈ List.range' 1 mh,
        pathsLen st k (pyStr (jget m "src_type")) (pyStr (jget m "dst_type")) = []) :
    generate env doc st llm jl validator intent mh mr =
      .ok (.errorOnly ("No valid schema path found between "
          ++ pyStr (jget m "src_type") ++ " and " ++ pyStr (jget m "dst_type")), 1) := by
  obtain ⟨h2, h3⟩ := env_filters_nil env henv
  have hpe : (get_schema_paths st (pyStr (jget m "src_type"))
      (pyStr (jget m "dst_type")) mh).isEmpty = true := by
    rw [get_schema_paths_of_all_empty st _ _ mh hnopath]; rfl
  unfold generate generate_from_store
  simp only [check_env_vars, check_llm_env_vars, henv, h2, h3, List.isEmpty_nil,
    if_true, hbuilt, parse_types, hc, hm, hpe]

/-- Witness for claim C4: with a store containing no relation at all between
the two inferred fixture types, the run stops after the inference call. -/
theorem claimC4_witness :
    generate envA docA stC llmA jlA valOK "intent" 5 2 =
      .ok (.errorOnly ("No valid schema path found between "
          ++ pyStr (jget [("src_type", JsonVal.jstr "Workbook"),
              ("dst_type", JsonVal.jstr "TableauUser")] "src_type")
          ++ " and "
          ++ pyStr (jget [("src_type", JsonVal.jstr "Workbook"),
              ("dst_type", JsonVal.jstr "TableauUser")] "dst_type")), 1) :=
  claimC4 envA docA stC llmA jlA valOK "intent" 5 2 inferRespA
    [("src_type", .jstr "Workbook"), ("dst_type", .jstr "TableauUser")]
    rfl rfl rfl rfl (by decide)

/-! ## Scanning lemmas

The positive and negative characterisations of the literal searches, used to
settle the extraction claims. -/

theorem strLt_asymm : ∀ a b : List Char, strLt a b = true → strLt b a = false := by
  intro a
  induction a with
  | nil =>
    intro b h
    cases b with
    | nil => cases h
    | cons c cs => rfl
  | cons x xs ih =>
    intro b h
    cases b with
    | nil => cases h
    | cons y ys =>
      rw [Bool.eq_false_iff]
      intro hcon
      simp only [strLt, Bool.or_eq_true, Bool.and_eq_true, Nat.blt_eq, beq_iff_eq] at h hcon
      rcases h with h1 | ⟨rfl, h2⟩
      · rcases hcon with hc1 | ⟨rfl, _⟩
        · omega
        · omega
      · rcases hcon with hc1 | ⟨_, hc2⟩
        · omega
        · have := ih ys h2
          rw [hc2] at this
          cases this

theorem strLt_trans : ∀ a b c : List Char,
    strLt a b = true → strLt b c = true → strLt a c = true := by
  intro a
  induction a with
  | nil =>
    intro b c hab hbc
    cases b with
    | nil => cases hab
    | cons y ys =>
      cases c with
      | nil => cases hbc
      | cons z zs => rfl
  | cons x xs ih =>
    intro b c hab hbc
    cases b with
    | nil => cases hab
    | cons y ys =>
      cases c with
      | nil => cases hbc
      | cons z zs =>
        simp only [strLt, Bool.or_eq_true, Bool.and_eq_true, Nat.blt_eq, beq_iff_eq]
          at hab hbc ⊢
        rcases hab with h1 | ⟨rfl, h2⟩
        · rcases hbc with g1 | ⟨rfl, _⟩
          · left; omega
          · left; exact h1
        · rcases hbc with g1 | ⟨rfl, g2⟩
          · left; exact g1
          · right; exact ⟨rfl, ih ys zs h2 g2⟩

theorem mem_insertRow (x y : String × Option String) :
    ∀ l : List (String × Option String), y ∈ insertRow x l → y = x ∨ y ∈ l := by
  intro l
  induction l with
  | nil =>
    intro h
    simp only [insertRow, List.mem_singleton] at h
    exact Or.inl h
  | cons z zs ih =>
    intro h
    simp only [insertRow] at h
    split at h
    · rcases List.mem_cons.mp h with rfl | h2
      · exact Or.inl rfl
      · exact Or.inr h2
    · rcases List.mem_cons.mp h with rfl | h2
      · exact Or.inr (by simp)
      · rcases ih h2 with rfl | h3
        · exact Or.inl rfl
        · exact Or.inr (by simp [h3])

theorem insertRow_sorted (x : String × Option String) :
    ∀ l : List (String × Option String),
      List.Pairwise (fun p q => strLt q.1.toList p.1.toList = false) l →
      List.Pairwise (fun p q => strLt q.1.toList p.1.toList = false) (insertRow x l) := by
  intro l
  induction l with
  | nil => intro _; simp [insertRow]
  | cons y ys ih =>
    intro hp
    rcases List.pairwise_cons.mp hp with ⟨hy, hys⟩
    have hdef : insertRow x (y :: ys)
        = if strLt x.1.toList y.1.toList then x :: y :: ys else y :: insertRow x ys := rfl
    by_cases hc : strLt x.1.toList y.1.toList = true
    · rw [hdef, if_pos hc]
      refine List.pairwise_cons.mpr ⟨?_, hp⟩
      intro z hz
      rcases List.mem_cons.mp hz with rfl | hz2
      · exact strLt_asymm _ _ hc
      · rw [Bool.eq_false_iff]
        intro hzx
        have hzy : strLt z.1.toList y.1.toList = true := strLt_trans _ _ _ hzx hc
        rw [hy z hz2] at hzy
        cases hzy
    · rw [hdef, if_neg hc]
      refine List.pairwise_cons.mpr ⟨?_, ih hys⟩
      intro z hz
      rcases mem_insertRow x z ys hz with rfl | hz2
      · exact Bool.eq_false_iff.mpr hc
      · exact hy z hz2

theorem sortRows_sorted (rows : List (String × Option String)) :
    List.Pairwise (fun p q => strLt q.1.toList p.1.toList = false) (sortRows rows) := by
  suffices h : ∀ (acc : List (String × Option String)),
      List.Pairwise (fun p q => strLt q.1.toList p.1.toList = false) acc →
      List.Pairwise (fun p q => strLt q.1.toList p.1.toList = false)
        (rows.foldl (fun acc x => insertRow x acc) acc) by
    exact h [] (by simp)
  induction rows with
  | nil => intro acc hacc; exact hacc
  | cons r rs ih =>
    intro acc hacc
    exact ih (insertRow r acc) (insertRow_sorted r acc hacc)

theorem mem_sortRows (y : String × Option String)
    (rows : List (String × Option String)) (h : y ∈ sortRows rows) : y ∈ rows := by
  suffices hgen : ∀ (acc : List (String × Option String)),
      y ∈ rows.foldl (fun acc x => insertRow x acc) acc → y ∈ acc ∨ y ∈ rows by
    rcases hgen [] h with h2 | h2
    · cases h2
    · exact h2
  clear h
  induction rows with
  | nil => intro acc h2; exact Or.inl h2
  | cons r rs ih =>
    intro acc h2
    rcases ih (insertRow r acc) h2 with h3 | h3
    · rcases mem_insertRow r y acc h3 with rfl | h4
      · exact Or.inr (by simp)
      · exact Or.inl h4
    · exact Or.inr (by simp [h3])

theorem flatMap_rel_eq_map (st : Store) (t : String) :
    ∀ l : List (String × String × String),
      (∀ e ∈ l, (st.relations.filter (fun r =>
          r.1 = t && r.2.2 = e.2.1 && decide (r.2.1 ∈ st.types))).length ≤ 1) →
      (l.flatMap (fun e =>
        match st.relations.filter (fun r =>
            r.1 = t && r.2.2 = e.2.1 && decide (r.2.1 ∈ st.types)) with
        | [] => [(e.2.1, none)]
        | rels => rels.map (fun r => (e.2.1, some r.2.1)))
      = l.map (fun e => (e.2.1, relTarget st t e.2.1))) := by
  intro l
  induction l with
  | nil => intro _; rfl
  | cons e es ih =>
    intro h
    rw [List.flatMap_cons, List.map_cons, ih (fun e' he' => h e' (by simp [he']))]
    rw [show ((e.2.1, relTarget st t e.2.1)
        :: es.map (fun e => (e.2.1, relTarget st t e.2.1)))
      = [(e.2.1, relTarget st t e.2.1)]
        ++ es.map (fun e => (e.2.1, relTarget st t e.2.1)) from rfl]
    congr 1
    rcases hrels : st.relations.filter (fun r =>
        r.1 = t && r.2.2 = e.2.1 && decide (r.2.1 ∈ st.types)) with _ | ⟨r, rest⟩
    · simp [relTarget, hrels]
    · cases rest with
      | nil => simp [relTarget, hrels]
      | cons r2 rest2 =>
        have hcount := h e (by simp)
        rw [hrels] at hcount
        simp at hcount

theorem snippetRows_eq_fieldTargets (st : Store) (t : String)
    (hrel : ∀ e ∈ st.hasField,
        (st.relations.filter (fun r =>
            r.1 = t && r.2.2 = e.2.1 && decide (r.2.1 ∈ st.types))).length ≤ 1) :
    snippetRows st t = fieldTargets st t := by
  unfold snippetRows fieldTargets
  exact flatMap_rel_eq_map st t _
    (fun e he => hrel e (List.mem_filter.mp he).1)

/-- Claim C8: for a store in which each field of `t` carries at most one
relation edge and no relation targets an empty type name (both hold for
every store the importer builds), the snippet is exactly the
specification-side rendering — the line `type T \x7b`, one line per field
of `t`, `  field: [target]` when the field has a relation target and
`  field` otherwise, closing `\x7d` — with the field lines ordered
lexicographically (the second conjunct); and two calls on an unchanged
store return identical text (the third conjunct, definitional since the
embedded store query is pure). -/
theorem claimC8 (st : Store) (t : String)
    (hrel : ∀ e ∈ st.hasField,
        (st.relations.filter (fun r =>
            r.1 = t && r.2.2 = e.2.1 && decide (r.2.1 ∈ st.types))).length ≤ 1)
    (hne : ∀ r ∈ st.relations, r.2.1 ≠ "") :
    get_schema_snippet st t = fieldSnippetSpec t (fieldTargets st t)
    ∧ List.Pairwise (fun p q => strLt q.1.toList p.1.toList = false)
        (sortRows (fieldTargets st t))
    ∧ get_schema_snippet st t = get_schema_snippet st t := by
  refine ⟨?_, sortRows_sorted _, rfl⟩
  have hmap : (sortRows (fieldTargets st t)).map rowLine
      = (sortRows (fieldTargets st t)).map specFieldLine := by
    apply List.map_congr_left
    intro row hrow
    have hmem := mem_sortRows row _ hrow
    rcases List.mem_map.mp hmem with ⟨e, he, rfl⟩
    rcases hrt : relTarget st t e.2.1 with _ | d
    · simp [rowLine, specFieldLine, hrt]
    · have hd : d ≠ "" := by
        unfold relTarget at hrt
        rcases hh : (st.relations.filter (fun r =>
            r.1 = t && r.2.2 = e.2.1 && decide (r.2.1 ∈ st.types))).head? with _ | r
        · rw [hh] at hrt; cases hrt
        · rw [hh] at hrt
          simp only [Option.map_some', Option.some.injEq] at hrt
          have hrmem : r ∈ st.relations.filter (fun r =>
              r.1 = t && r.2.2 = e.2.1 && decide (r.2.1 ∈ st.types)) :=
            List.mem_of_mem_head? (by simp [hh])
          have hrel2 : r ∈ st.relations := (List.mem_filter.mp hrmem).1
          rw [← hrt]
          exact hne r hrel2
      simp [rowLine, specFieldLine, hrt, hd]
  unfold get_schema_snippet fieldSnippetSpec
  rw [snippetRows_eq_fieldTargets st t hrel, hmap]

/-- Witness for claim C8 at the concrete fixture store. -/
theorem claimC8_witness :
    get_schema_snippet stA "Workbook"
        = fieldSnippetSpec "Workbook" (fieldTargets stA "Workbook")
    ∧ List.Pairwise (fun p q => strLt q.1.toList p.1.toList = false)
        (sortRows (fieldTargets stA "Workbook"))
    ∧ get_schema_snippet stA "Workbook" = get_schema_snippet stA "Workbook" :=
  claimC8 stA "Workbook" (by decide) (by decide)

end GraphWeaver
